import Mathlib

/-!
Verification of the stream-visualisation core of `rust-stream-vis`.

Shallow embedding of the data model and the pipeline-construction /
event-emission logic of `src/main.rs`, `src/stream_vis.rs` and
`src/stream_vis_builder.rs`.  Machine floats (`f32`) that only ever hold
small exact fractions (`i / 5`, colour components, retain ratios) are
modelled by `ℚ`; `u32`/`usize` identifiers and counters are modelled by `ℕ`
(no arithmetic in the source comes near an overflow).  Randomness
(`rand::random::<f32>()`) is modelled by passing the uniform draw as an
explicit argument.
-/

/-- Colour in the sense of bevy's `Color::rgb`, with exact rational
components. -/
structure Color where
  r : ℚ
  g : ℚ
  b : ℚ
deriving DecidableEq

/-- Mirror of `Color::rgb`. -/
def Color.rgb (r g b : ℚ) : Color := ⟨r, g, b⟩

/-- Mirror of `Color::WHITE`. -/
def Color.WHITE : Color := ⟨1, 1, 1⟩

/-- The stage-colour palette `COLORS` of `stream_vis_builder.rs` (lines
18-23). -/
def COLORS : List Color :=
  [Color.rgb (mkRat 50 100) (mkRat 27 100) (mkRat 45 100),
   Color.rgb (mkRat 66 100) (mkRat 39 100) (mkRat 39 100),
   Color.rgb (mkRat 61 100) (mkRat 27 100) (mkRat 27 100),
   Color.rgb (mkRat 26 100) (mkRat 46 100) (mkRat 42 100)]

/-- Stage colour lookup `COLORS[(id as usize) % COLORS.len()]`. -/
def stageColor (id : ℕ) : Color := COLORS.getD (id % COLORS.length) Color.WHITE

/-- Mirror of `UnitValueKind` (main.rs). -/
inductive UnitValueKind
  | PendingFuture (c : Color)
  | RunningFuture (progress : ℚ)
  | Value (c : Color)
deriving DecidableEq

/-- Mirror of `UnitCreatedEvent` (main.rs). -/
structure UnitCreatedEvent where
  id : ℕ
  block_id : ℕ
  value : UnitValueKind
deriving DecidableEq

/-- Mirror of `UnitValueUpdateEvent` (main.rs). -/
structure UnitValueUpdateEvent where
  id : ℕ
  value : UnitValueKind
deriving DecidableEq

/-- Mirror of `FilteredOutEvent` (main.rs). -/
structure FilteredOutEvent where
  id : ℕ
deriving DecidableEq

/-- Mirror of `UnitAdvanceBlockEvent` (main.rs). -/
structure UnitAdvanceBlockEvent where
  id : ℕ
  block_id : ℕ
  from_block_id : ℕ
deriving DecidableEq

/-- Mirror of `StreamUpdate` (main.rs): the four lifecycle events. -/
inductive StreamUpdate
  | Created (e : UnitCreatedEvent)
  | ChangeValue (e : UnitValueUpdateEvent)
  | AdvanceBlock (e : UnitAdvanceBlockEvent)
  | FilteredOut (e : FilteredOutEvent)
deriving DecidableEq

/-- The item id an event carries. -/
def idOf : StreamUpdate → ℕ
  | .Created e => e.id
  | .ChangeValue e => e.id
  | .AdvanceBlock e => e.id
  | .FilteredOut e => e.id

/-- Whether an event is a rejection (`StreamUpdate::FilteredOut`). -/
def isRej : StreamUpdate → Bool
  | .FilteredOut _ => true
  | _ => false

/-- Mirror of `StreamedUnit` (main.rs): an item with its current-stage
tag. -/
structure StreamedUnit where
  id : ℕ
  block_id : ℕ
deriving DecidableEq

/-- Mirror of `JitteringDuration` (stream_vis_builder.rs); durations are
rational milliseconds. -/
structure JitteringDuration where
  duration : ℚ
  jitter : ℚ
deriving DecidableEq

/-- Mirror of `JitteringDuration::from_millis`. -/
def JitteringDuration.from_millis (millis : ℕ) (jitter : ℚ) : JitteringDuration :=
  { duration := millis, jitter := jitter }

/-- Mirror of `JitteringDuration::get`; the uniform draw `u` that
`rand::random` produces is passed explicitly. -/
def JitteringDuration.get (self : JitteringDuration) (u : ℚ) : ℚ :=
  self.duration + self.duration * self.jitter * u

/-- Mirror of `SourceBlock` (stream_vis.rs). -/
structure SourceBlock where
  id : ℕ
deriving DecidableEq

/-- Mirror of `BufferBlock` (stream_vis.rs). -/
structure BufferBlock where
  id : ℕ
  duration : ℚ
  buffered : ℕ
  units : List ℕ
deriving DecidableEq

/-- Mirror of `BufferUnrderedBlock` (stream_vis.rs; the source's own
spelling). -/
structure BufferUnrderedBlock where
  id : ℕ
  duration : ℚ
  buffered : ℕ
  slots : List (Option ℕ)
deriving DecidableEq

/-- Mirror of `BufferUnrderedBlock::new` (stream_vis.rs lines 34-43):
`slots` is `vec![None; size]`. -/
def BufferUnrderedBlock.new (id : ℕ) (size : ℕ) (duration : ℚ) (buffered : ℕ) :
    BufferUnrderedBlock :=
  { id := id, duration := duration, buffered := buffered,
    slots := List.replicate size none }

/-- Mirror of `FilterBlock` (stream_vis.rs). -/
structure FilterBlock where
  id : ℕ
  duration : ℚ
deriving DecidableEq

/-- Mirror of `SinkBlock` (stream_vis.rs). -/
structure SinkBlock where
  id : ℕ
deriving DecidableEq

/-- Mirror of `StreamBlock` (stream_vis.rs): the stage-descriptor sum
type. -/
inductive StreamBlock
  | source (b : SourceBlock)
  | mapBuffer (b : BufferBlock)
  | mapBufferUnordered (b : BufferUnrderedBlock)
  | filterBlock (b : FilterBlock)
  | sink (b : SinkBlock)
deriving DecidableEq

/-- Mirror of `StreamBlock::id`. -/
def StreamBlock.id : StreamBlock → ℕ
  | .source b => b.id
  | .mapBuffer b => b.id
  | .mapBufferUnordered b => b.id
  | .filterBlock b => b.id
  | .sink b => b.id

/-- A stage appended by one fluent builder call, with its configuration.
Used as the syntactic record of the composed stream (the `BoxStream` field
of the Rust builder), consumed by the trace semantics below. -/
inductive StageOp
  | filter (d : JitteringDuration) (ratio : ℚ)
  | map_buffered (d : JitteringDuration) (buffered : ℕ)
  | map_buffer_unordered (d : JitteringDuration) (buffered : ℕ)
deriving DecidableEq

/-- Mirror of `StreamVisBuilder` (stream_vis_builder.rs).  The Rust
struct carries the composed `BoxStream` plus the channel endpoints; the
stream is modelled by the source size together with the list of appended
stage operations, and the channel by the trace semantics below. -/
structure StreamVisBuilder where
  size : ℕ
  ops : List StageOp
  blocks : List StreamBlock
deriving DecidableEq

/-- Mirror of `StreamVisBuilder::source` (lines 54-78): one `SourceBlock`
with id 0. -/
def StreamVisBuilder.source (size : ℕ) : StreamVisBuilder :=
  { size := size, ops := [], blocks := [StreamBlock.source { id := 0 }] }

/-- Mirror of `StreamVisBuilder::filter` (lines 80-109): the new stage id
is `self.blocks.len() + 1` and a `FilterBlock` is appended.  No
validation of `filter_ratio` is performed. -/
def StreamVisBuilder.filter (self : StreamVisBuilder)
    (async_duration : JitteringDuration) (filter_ratio : ℚ) : StreamVisBuilder :=
  let id := self.blocks.length + 1
  { size := self.size
    ops := self.ops ++ [StageOp.filter async_duration filter_ratio]
    blocks := self.blocks ++
      [StreamBlock.filterBlock { id := id, duration := async_duration.duration }] }

/-- Mirror of `StreamVisBuilder::map_buffered` (lines 111-141): the new
stage id is `self.blocks.len() + 1` and a `BufferBlock` with an empty
occupancy queue is appended.  No validation of `buffered` is
performed. -/
def StreamVisBuilder.map_buffered (self : StreamVisBuilder)
    (async_duration : JitteringDuration) (buffered : ℕ) : StreamVisBuilder :=
  let map_id := self.blocks.length + 1
  { size := self.size
    ops := self.ops ++ [StageOp.map_buffered async_duration buffered]
    blocks := self.blocks ++
      [StreamBlock.mapBuffer
        { id := map_id, duration := async_duration.duration,
          buffered := buffered, units := [] }] }

/-- Mirror of `StreamVisBuilder::map_buffer_unordered` (lines 143-175):
the new stage id is `self.blocks.len() + 1` and a `BufferUnrderedBlock`
with `buffered * 3` slots is appended.  No validation of `buffered` is
performed. -/
def StreamVisBuilder.map_buffer_unordered (self : StreamVisBuilder)
    (async_duration : JitteringDuration) (buffered : ℕ) : StreamVisBuilder :=
  let map_id := self.blocks.length + 1
  { size := self.size
    ops := self.ops ++ [StageOp.map_buffer_unordered async_duration buffered]
    blocks := self.blocks ++
      [StreamBlock.mapBufferUnordered
        (BufferUnrderedBlock.new map_id (buffered * 3) async_duration.duration buffered)] }

/-- Mirror of `StreamVisBuilder::sink` (lines 177-201): the sink id is
`self.blocks.len() + 1` and a `SinkBlock` is appended.  The Rust function
also spawns the driver thread and returns the event receiver; that side
is modelled by the trace semantics below, so only the stage-descriptor
list is returned here. -/
def StreamVisBuilder.sink (self : StreamVisBuilder) : List StreamBlock :=
  let sink_id := self.blocks.length + 1
  self.blocks ++ [StreamBlock.sink { id := sink_id }]

/-- Dispatch one fluent builder call. -/
def applyOp (b : StreamVisBuilder) : StageOp → StreamVisBuilder
  | .filter d r => b.filter d r
  | .map_buffered d c => b.map_buffered d c
  | .map_buffer_unordered d c => b.map_buffer_unordered d c

/-- The stage-descriptor list produced by
`source(n).op_1()....op_k().sink()`. -/
def buildBlocks (n : ℕ) (ops : List StageOp) : List StreamBlock :=
  (ops.foldl applyOp (StreamVisBuilder.source n)).sink


/-- One step of the trace produced by the driver's execution: either a
`tx.send(...)` of a lifecycle event, or a `tokio::time::sleep` of a
duration (in milliseconds). -/
inductive TraceStep
  | emit (e : StreamUpdate)
  | sleep (d : ℚ)
deriving DecidableEq

/-- The lifecycle events of a trace, in order (the contents of the event
channel; sleeps are invisible to the consumer). -/
def eventsOf (steps : List TraceStep) : List StreamUpdate :=
  steps.filterMap fun s =>
    match s with
    | .emit e => some e
    | .sleep _ => none

/-- The sleeps of a trace, in order. -/
def sleepsOf (steps : List TraceStep) : List ℚ :=
  steps.filterMap fun s =>
    match s with
    | .emit _ => none
    | .sleep d => some d

/-- The fixed tick count `interval = 5` of `updating_future`. -/
def INTERVAL : ℕ := 5

/-- Mirror of `updating_future` (stream_vis_builder.rs lines 245-295), the
SimulatedWork primitive.  `uj` is the uniform draw consumed by
`duration.get()`.  The returned trace is: `InProgress(0)` at entry, then
for each of the five ticks a sleep of `duration / 5` followed by
`InProgress(i / 5)` (`mkRat i INTERVAL` is the exact rational `i / 5`);
the returned unit is re-tagged with `block_id`. -/
def updating_future (unit : StreamedUnit) (block_id : ℕ)
    (duration : JitteringDuration) (uj : ℚ) : List TraceStep × StreamedUnit :=
  let d := duration.get uj
  (TraceStep.emit (.ChangeValue { id := unit.id, value := .RunningFuture 0 }) ::
    (List.range INTERVAL).flatMap (fun i =>
      [TraceStep.sleep (d / (INTERVAL : ℚ)),
       TraceStep.emit (.ChangeValue
         { id := unit.id, value := .RunningFuture (mkRat (i + 1) INTERVAL) })]),
   { id := unit.id, block_id := block_id })

/-- Mirror of `updating_filter` (stream_vis_builder.rs lines 204-243) with
the retain draw already decided (`is_in = uniform() < filter_ratio`): on
arrival `AdvanceBlock` into `phase` and `ChangeValue(Pending)` are sent,
then `updating_future` runs — its re-tagged result is DISCARDED, exactly
as in the source (`updating_future(...).await;` drops the value) — and
finally either the original, un-re-tagged `unit` is passed on (`is_in`)
or `FilteredOut` is sent and `none` is returned. -/
def updating_filter_dec (phase : ℕ) (duration : JitteringDuration) (color : Color)
    (unit : StreamedUnit) (uj : ℚ) (is_in : Bool) :
    List TraceStep × Option StreamedUnit :=
  let head := [TraceStep.emit (.AdvanceBlock
                 { id := unit.id, block_id := phase, from_block_id := unit.block_id }),
               TraceStep.emit (.ChangeValue
                 { id := unit.id, value := .PendingFuture color })]
  let steps := (updating_future unit phase duration uj).1
  (head ++ steps ++ (if is_in then [] else
      [TraceStep.emit (.FilteredOut { id := unit.id })]),
   if is_in then some unit else none)

/-- Mirror of `updating_filter` with the uniform retain draw `u` explicit:
`is_in = u < filter_ratio`. -/
def updating_filter (phase : ℕ) (duration : JitteringDuration) (filter_ratio : ℚ)
    (color : Color) (unit : StreamedUnit) (uj u : ℚ) :
    List TraceStep × Option StreamedUnit :=
  updating_filter_dec phase duration color unit uj (decide (u < filter_ratio))

/-- Mirror of `update_stream_state` (stream_vis_builder.rs lines 297-335),
the per-item map-stage closure: `AdvanceBlock` into `phase2` and
`ChangeValue(Pending)` are sent synchronously, then `updating_future` runs
on the unit re-tagged with `phase2`, and its (re-tagged) result is the
stream element. -/
def update_stream_state (phase2 : ℕ) (duration : JitteringDuration) (color : Color)
    (unit : StreamedUnit) (uj : ℚ) : List TraceStep × StreamedUnit :=
  let head := [TraceStep.emit (.AdvanceBlock
                 { id := unit.id, block_id := phase2, from_block_id := unit.block_id }),
               TraceStep.emit (.ChangeValue
                 { id := unit.id, value := .PendingFuture color })]
  let r := updating_future { id := unit.id, block_id := phase2 } phase2 duration uj
  (head ++ r.1, r.2)

/-- The per-item step of `StreamVisBuilder::source` (lines 58-70): the
`Created` event sent when item `id` is pulled, paired with the produced
`StreamedUnit`. -/
def source_item (id : ℕ) : StreamUpdate × StreamedUnit :=
  (.Created { id := id, block_id := 0, value := .Value Color.WHITE },
   { id := id, block_id := 0 })

/-- The lazy source sequence of `source(N)`: each item is produced
together with its `Created` event, ids `0..N-1` in order. -/
def sourceTrace (size : ℕ) : List (StreamUpdate × StreamedUnit) :=
  (List.range size).map source_item


/-- Mirror of the sink loop of `StreamVisBuilder::sink` (lines 183-194):
for every unit the sink receives it sends one `AdvanceBlock` into the
sink id, with `from_block_id` taken from the unit's current tag. -/
def sink_step (sink_id : ℕ) (unit : StreamedUnit) : StreamUpdate :=
  .AdvanceBlock { id := unit.id, block_id := sink_id, from_block_id := unit.block_id }

/-- Per-item trace of the concrete pipeline
`source(3).filter(d, ratio).sink()`.  `filter_map` drives one future at a
time and the sink pulls one element at a time, so the run is sequential:
item `id` is created, runs through the filter (stage id 2, the id the
builder assigns to the first appended stage), and, when retained, is
advanced into the sink (id 3).  `is_in` is the item's retain draw
outcome. -/
def scenarioItem (id : ℕ) (d : JitteringDuration) (uj : ℚ) (is_in : Bool) :
    List TraceStep :=
  let src := source_item id
  let f := updating_filter_dec 2 d (stageColor 2) src.2 uj is_in
  TraceStep.emit src.1 ::
    f.1 ++ (match f.2 with
      | some u => [TraceStep.emit (sink_step 3 u)]
      | none => [])

/-- Full trace of `source(3).filter(d, ratio).sink()`: the concatenation
of the three per-item traces, in id order.  `ujs` gives each item's
jitter draw and `retain` each item's retain-draw outcome. -/
def scenarioTrace (d : JitteringDuration) (ujs : ℕ → ℚ) (retain : ℕ → Bool) :
    List TraceStep :=
  (List.range 3).flatMap fun id => scenarioItem id d (ujs id) (retain id)

/-- Whether an event is `Created{i, ...}`. -/
def isCreatedOf (i : ℕ) : StreamUpdate → Bool
  | .Created e => e.id == i
  | _ => false

/-- Whether an event is `AdvanceBlock{i, toId, ...}`. -/
def isAdvanceIntoOf (toId i : ℕ) : StreamUpdate → Bool
  | .AdvanceBlock e => e.id == i && e.block_id == toId
  | _ => false

/-- Whether an event is `ChangeValue(i, PendingFuture _)`. -/
def isPendingOf (i : ℕ) : StreamUpdate → Bool
  | .ChangeValue ⟨j, .PendingFuture _⟩ => j == i
  | _ => false

/-- Whether an event is `FilteredOut{i}`. -/
def isRejOf (i : ℕ) : StreamUpdate → Bool
  | .FilteredOut e => e.id == i
  | _ => false

/-- All `InProgress` fractions reported for item `i`, in trace order. -/
def progressValues (tr : List StreamUpdate) (i : ℕ) : List ℚ :=
  tr.filterMap fun e =>
    match e with
    | .ChangeValue ⟨j, .RunningFuture q⟩ => if j == i then some q else none
    | _ => none

/-- The ids of the `Created` events of a trace, in order. -/
def createdIds (tr : List StreamUpdate) : List ℕ :=
  tr.filterMap fun e =>
    match e with
    | .Created e => some e.id
    | _ => none

/-- Event-level lifetime of one item travelling the stage list `ops`
(phases numbered from 2, the id the builder gives the first appended
stage), ending at the sink.  Filters that reject stop the lifetime with
`FilteredOut` as its very last event — the unit is dropped from the
stream (`filter_map` yields `None`) and no later stage ever sees it.
`retain` gives the per-stage retain-draw outcomes, `durs` the per-stage
jitter draws. -/
def itemLifetime (sink_id : ℕ) (retain : ℕ → Bool) (durs : ℕ → ℚ) :
    StreamedUnit → ℕ → List StageOp → List StreamUpdate
  | unit, _, [] => [sink_step sink_id unit]
  | unit, phase, op :: rest =>
    match op with
    | .filter d _ =>
      let f := updating_filter_dec phase d (stageColor phase) unit (durs phase)
        (retain phase)
      eventsOf f.1 ++
        (match f.2 with
          | some u => itemLifetime sink_id retain durs u (phase + 1) rest
          | none => [])
    | .map_buffered d _ =>
      let m := update_stream_state phase d (stageColor phase) unit (durs phase)
      eventsOf m.1 ++ itemLifetime sink_id retain durs m.2 (phase + 1) rest
    | .map_buffer_unordered d _ =>
      let m := update_stream_state phase d (stageColor phase) unit (durs phase)
      eventsOf m.1 ++ itemLifetime sink_id retain durs m.2 (phase + 1) rest

/-- Full per-item event sequence of a pipeline `source(n).ops.sink()`:
the `Created` event followed by the item's lifetime through the stages.
The sink id is `ops.length + 2` (the builder's id for the sink of such a
pipeline). -/
def fullItemTrace (ops : List StageOp) (retain : ℕ → Bool) (durs : ℕ → ℚ)
    (i : ℕ) : List StreamUpdate :=
  (source_item i).1 :: itemLifetime (ops.length + 2) retain durs (source_item i).2 2 ops

/-- The family of per-item event sequences of `source(n).ops.sink()`,
indexed by item id (empty beyond `n`). -/
def pipelineTraces (n : ℕ) (ops : List StageOp) (retain : ℕ → ℕ → Bool)
    (durs : ℕ → ℕ → ℚ) : ℕ → List StreamUpdate :=
  fun i => if i < n then fullItemTrace ops (retain i) (durs i) i else []

/-- Modelled from the spec: the cooperative tokio/futures scheduler that
the repository relies on (§5) is not part of the sources; every event the
channel carries belongs to exactly one item, and each item's events are
sent in its own program order, so the observable trace is an arbitrary
interleaving of the per-item event sequences.  `sched` names, step by
step, which item's next event is delivered (ids with an exhausted or
empty sequence are skipped). -/
def interleave (trs : ℕ → List StreamUpdate) : List ℕ → List StreamUpdate
  | [] => []
  | i :: rest =>
    match trs i with
    | [] => interleave trs rest
    | e :: tl => e :: interleave (fun j => if j = i then tl else trs j) rest

/-- A trace is clean after rejections: whenever `FilteredOut{id}` occurs,
no later event of the trace carries that id. -/
def cleanAfterRej : List StreamUpdate → Prop
  | [] => True
  | e :: rest => (isRej e = true → ∀ x ∈ rest, idOf x ≠ idOf e) ∧ cleanAfterRej rest

/-- A rejection event occurs only as the last event of a sequence. -/
def rejLastP : List StreamUpdate → Prop
  | [] => True
  | e :: rest => (isRej e = true → rest = []) ∧ rejLastP rest

/-- Modelled from the spec: state of the ordered bounded map combinator
(`futures::StreamExt::buffered`, §4.5 — the combinator itself is a crate
dependency, not part of this repository's sources).  `pending` are items
not yet admitted, `inflight` the admitted items in submission order with
a completion flag, `emitted` the items already yielded downstream. -/
structure OrdState where
  pending : List ℕ
  inflight : List (ℕ × Bool)
  emitted : List ℕ
deriving DecidableEq

/-- Scheduler actions for the ordered bounded map machine: admit the next
pending item (only when fewer than the bound are in flight), complete the
in-flight item at position `i` (the oracle for jittered completion
times), or yield the front item once it is completed. -/
inductive OrdAction
  | start
  | complete (i : ℕ)
  | yield
deriving DecidableEq

/-- Mark the in-flight entry at position `i` as completed. -/
def markAt : ℕ → List (ℕ × Bool) → List (ℕ × Bool)
  | _, [] => []
  | 0, (p, _) :: rest => (p, true) :: rest
  | n + 1, x :: rest => x :: markAt n rest

/-- Modelled from the spec: one step of `buffered(bound)` (§4.5).  New
items are admitted only while fewer than `bound` are in flight; any
in-flight item may complete at any time; a completed item is yielded only
from the FRONT of the in-flight queue, i.e. in submission order. -/
def ordStep (bound : ℕ) (s : OrdState) : OrdAction → OrdState
  | .start =>
    match s.pending with
    | [] => s
    | p :: rest =>
      if s.inflight.length < bound then
        { pending := rest, inflight := s.inflight ++ [(p, false)], emitted := s.emitted }
      else s
  | .complete i => { pending := s.pending, inflight := markAt i s.inflight, emitted := s.emitted }
  | .yield =>
    match s.inflight with
    | (x, true) :: tl => { pending := s.pending, inflight := tl, emitted := s.emitted ++ [x] }
    | _ => s

/-- A full run of the ordered bounded map machine. -/
def ordRun (bound : ℕ) (inputs : List ℕ) (acts : List OrdAction) : OrdState :=
  acts.foldl (ordStep bound) { pending := inputs, inflight := [], emitted := [] }

/-- Modelled from the spec: state of the unordered bounded map combinator
(`futures::StreamExt::buffer_unordered`, §4.6 — a crate dependency, not
part of this repository's sources).  `inflight` holds each admitted,
unfinished item with the number of progress ticks it has completed so
far; `trace` is the event stream the stage has sent. -/
structure UnordState where
  pending : List ℕ
  inflight : List (ℕ × ℕ)
  trace : List StreamUpdate
deriving DecidableEq

/-- Scheduler actions for the unordered machine: admit the next pending
item (only when fewer than the bound are in flight), or advance the
simulated work of the in-flight item at position `i` by one tick. -/
inductive UnordAction
  | start
  | tick (i : ℕ)
deriving DecidableEq

/-- Advance the in-flight entry at position `i` by one progress tick,
returning the new in-flight list and the events emitted.  On a non-final
tick the item reports `InProgress((k+1)/5)` and stays; on the final tick
(`i = interval`) the reported fraction `interval/interval` is exactly 1
and the item leaves the stage (it is yielded downstream in completion
order). -/
def tickAt : ℕ → List (ℕ × ℕ) → List (ℕ × ℕ) × List StreamUpdate
  | _, [] => ([], [])
  | 0, (p, k) :: rest =>
    if k + 1 < INTERVAL then
      ((p, k + 1) :: rest,
       [.ChangeValue { id := p, value := .RunningFuture (mkRat (k + 1) INTERVAL) }])
    else
      (rest, [.ChangeValue { id := p, value := .RunningFuture 1 }])
  | n + 1, x :: rest =>
    let r := tickAt n rest
    (x :: r.1, r.2)

/-- Modelled from the spec: one step of `buffer_unordered(bound)` (§4.6).
Admission (only while fewer than `bound` are in flight) sends the
map-closure events `AdvanceBlock` and `Pending` and the first
`InProgress(0)` of the item's simulated work; a tick advances any
in-flight item. -/
def unordStep (bound phase : ℕ) (color : Color) (s : UnordState) : UnordAction → UnordState
  | .start =>
    match s.pending with
    | [] => s
    | p :: rest =>
      if s.inflight.length < bound then
        { pending := rest
          inflight := s.inflight ++ [(p, 0)]
          trace := s.trace ++
            [.AdvanceBlock { id := p, block_id := phase, from_block_id := 0 },
             .ChangeValue { id := p, value := .PendingFuture color },
             .ChangeValue { id := p, value := .RunningFuture 0 }] }
      else s
  | .tick i =>
    let r := tickAt i s.inflight
    { pending := s.pending, inflight := r.1, trace := s.trace ++ r.2 }

/-- A full run of the unordered bounded map machine. -/
def unordRun (bound phase : ℕ) (color : Color) (inputs : List ℕ)
    (acts : List UnordAction) : UnordState :=
  acts.foldl (unordStep bound phase color) { pending := inputs, inflight := [], trace := [] }

/-- Whether the trace contains an `InProgress` report for item `i`. -/
def hasRF (tr : List StreamUpdate) (i : ℕ) : Bool :=
  tr.any fun e =>
    match e with
    | .ChangeValue ⟨j, .RunningFuture _⟩ => j == i
    | _ => false

/-- Whether the trace contains the final `InProgress(1)` report for item
`i`. -/
def hasRF1 (tr : List StreamUpdate) (i : ℕ) : Bool :=
  tr.any fun e =>
    match e with
    | .ChangeValue ⟨j, .RunningFuture q⟩ => j == i && q == 1
    | _ => false

/-- Item `i` has work in flight according to the trace: some `InProgress`
was reported but the final fraction 1 was not yet reported. -/
def openRF (tr : List StreamUpdate) (i : ℕ) : Bool :=
  hasRF tr i && !hasRF1 tr i

/-- How many of the candidate ids have work in flight according to the
trace. -/
def openCount (tr : List StreamUpdate) (ids : List ℕ) : ℕ :=
  ids.countP (openRF tr)


/-! Helper lemmas (shared; none of these is a claim theorem). -/

/-- Appending one stage appends exactly one block whose id is
`blocks.len() + 1`. -/
theorem applyOp_ids (b : StreamVisBuilder) (op : StageOp) :
    (applyOp b op).blocks.map StreamBlock.id
      = b.blocks.map StreamBlock.id ++ [b.blocks.length + 1] ∧
    (applyOp b op).blocks.length = b.blocks.length + 1 := by
  cases op <;>
    simp [applyOp, StreamVisBuilder.filter, StreamVisBuilder.map_buffered,
      StreamVisBuilder.map_buffer_unordered, StreamBlock.id, BufferUnrderedBlock.new]

/-- Ranges grow one element at the right end. -/
theorem range'_snoc (s n : ℕ) : List.range' s (n + 1) = List.range' s n ++ [s + n] := by
  induction n generalizing s with
  | zero => simp
  | succ m ih =>
    rw [List.range'_succ, ih (s + 1), List.range'_succ]
    simp [Nat.add_assoc, Nat.add_comm 1 m]

/-- Folding builder calls accumulates ids `len+1, len+2, ...`. -/
theorem foldl_applyOp_ids (ops : List StageOp) (b : StreamVisBuilder) :
    (ops.foldl applyOp b).blocks.map StreamBlock.id
      = b.blocks.map StreamBlock.id ++ List.range' (b.blocks.length + 1) ops.length ∧
    (ops.foldl applyOp b).blocks.length = b.blocks.length + ops.length := by
  induction ops generalizing b with
  | nil => simp
  | cons op rest ih =>
    have h := applyOp_ids b op
    have h2 := ih (applyOp b op)
    rw [List.foldl_cons]
    refine ⟨?_, ?_⟩
    · rw [h2.1, h.1, h.2, List.append_assoc]
      simp only [List.length_cons, List.range'_succ]
      simp
    · rw [h2.2, h.2]
      simp only [List.length_cons]
      omega

/-! Claim theorems. -/

/-- C1, counterexample to the claim as stated: for the pipeline
`source(1).filter(...).sink()` the stage ids are `[0, 2, 3]`, not the
consecutive `[0, 1, 2]` (`List.range`) the claim demands — the first
appended stage receives id 2, not 1. -/
theorem stage_ids_not_consecutive :
    (buildBlocks 1 [StageOp.filter (JitteringDuration.from_millis 100 0) 1]).map
        StreamBlock.id
      ≠ List.range
          (buildBlocks 1 [StageOp.filter (JitteringDuration.from_millis 100 0) 1]).length ∧
    (buildBlocks 1 [StageOp.filter (JitteringDuration.from_millis 100 0) 1]).map
        StreamBlock.id = [0, 2, 3] := by
  decide

/-- C1, amended: stage ids are unique and strictly increasing in
composition order, but with a gap of one after the Source: the Source
gets 0, the k-th appended stage gets `k + 1` (each call uses
`blocks.len() + 1`), and the Sink gets one more than the final
intermediate stage.  For any op list the id sequence is
`0, 2, 3, ..., ops.length + 2`. -/
theorem stage_ids_structure (n : ℕ) (ops : List StageOp) :
    (buildBlocks n ops).map StreamBlock.id = 0 :: List.range' 2 (ops.length + 1) := by
  have h := foldl_applyOp_ids ops (StreamVisBuilder.source n)
  have hsrc : (StreamVisBuilder.source n).blocks.map StreamBlock.id = [0] := rfl
  have hlen : (StreamVisBuilder.source n).blocks.length = 1 := rfl
  unfold buildBlocks StreamVisBuilder.sink
  rw [List.map_append, h.1, hsrc, hlen, h.2, hlen, range'_snoc]
  have harith : (1 : ℕ) + ops.length + 1 = 2 + ops.length := by omega
  have harith2 : (1 : ℕ) + (ops.length + 1) = 2 + ops.length := by omega
  simp [StreamBlock.id, harith, harith2]

/-- C2: at the failing input — unit `{id 0, block_id 0}` entering the
filter stage (id 2) with retain draw `u = 0 < ratio = 1/2`, i.e. the
draw succeeds — the retained item is yielded downstream still tagged
`block_id = 0`, NOT re-tagged to the filter's id 2, even though the
`updating_future` the filter awaited did return the re-tagged unit (the
source drops that return value). -/
theorem filter_output_not_retagged :
    (updating_filter 2 (JitteringDuration.from_millis 100 0) (mkRat 1 2)
        (stageColor 2) ⟨0, 0⟩ 0 0).2 = some ⟨0, 0⟩ ∧
    (updating_filter 2 (JitteringDuration.from_millis 100 0) (mkRat 1 2)
        (stageColor 2) ⟨0, 0⟩ 0 0).2.map StreamedUnit.block_id ≠ some 2 ∧
    (updating_future ⟨0, 0⟩ 2 (JitteringDuration.from_millis 100 0) 0).2 = ⟨0, 2⟩ := by
  decide

/-- C3, counterexample to the claim as stated: a retain ratio of `3/2`
(outside `[0,1]`) and a concurrency bound of 0 are both accepted by the
builder, which still produces a fully constructed pipeline — nothing
fails at build time. -/
theorem invalid_config_builds :
    (StreamVisBuilder.source 1 |>.filter (JitteringDuration.from_millis 100 0)
        (mkRat 3 2)).sink
      = [StreamBlock.source ⟨0⟩, StreamBlock.filterBlock ⟨2, 100⟩,
         StreamBlock.sink ⟨3⟩] ∧
    ((StreamVisBuilder.source 1).map_buffered (JitteringDuration.from_millis 100 0)
        0).sink
      = [StreamBlock.source ⟨0⟩, StreamBlock.mapBuffer ⟨2, 100, 0, []⟩,
         StreamBlock.sink ⟨3⟩] := by
  decide

/-- C3, amended: the builder performs no configuration validation at
all — for EVERY retain ratio (in or out of `[0,1]`) and EVERY
concurrency bound (including 0) the build succeeds and produces the same
stage-descriptor structure; no configuration is rejected at
pipeline-build time. -/
theorem builder_no_validation (n : ℕ) (d : JitteringDuration) (r : ℚ) (c : ℕ) :
    ((StreamVisBuilder.source n |>.filter d r).sink).map StreamBlock.id = [0, 2, 3] ∧
    (((StreamVisBuilder.source n).map_buffered d c).sink).map StreamBlock.id = [0, 2, 3] ∧
    (((StreamVisBuilder.source n).map_buffer_unordered d c).sink).map StreamBlock.id
      = [0, 2, 3] := by
  refine ⟨?_, ?_, ?_⟩ <;>
    simp [StreamVisBuilder.source, StreamVisBuilder.filter, StreamVisBuilder.map_buffered,
      StreamVisBuilder.map_buffer_unordered, StreamVisBuilder.sink, StreamBlock.id,
      BufferUnrderedBlock.new]

/-- C7: `updating_future` reports exactly `INTERVAL + 1 = 6` progress
fractions `0, 1/5, 2/5, 3/5, 4/5, 5/5` for its item, the last being
exactly 1; it sleeps exactly 5 times, each `duration / 5` of the jittered
duration; and it returns the item re-tagged with the target stage id. -/
theorem updating_future_progress (unit : StreamedUnit) (block_id : ℕ)
    (d : JitteringDuration) (uj : ℚ) :
    eventsOf (updating_future unit block_id d uj).1
      = ([0, 1, 2, 3, 4, 5].map fun k =>
          .ChangeValue { id := unit.id, value := .RunningFuture (mkRat k INTERVAL) }) ∧
    (eventsOf (updating_future unit block_id d uj).1).length = INTERVAL + 1 ∧
    (eventsOf (updating_future unit block_id d uj).1).getLast?
      = some (.ChangeValue { id := unit.id, value := .RunningFuture 1 }) ∧
    sleepsOf (updating_future unit block_id d uj).1
      = List.replicate INTERVAL (d.get uj / (INTERVAL : ℚ)) ∧
    (updating_future unit block_id d uj).2 = { id := unit.id, block_id := block_id } :=
  ⟨rfl, rfl, rfl, rfl, rfl⟩

/-- C8: `source(N)` produces items `0..N-1` in order, each paired — at
the moment it is produced — with its `Created` event carrying stage id 0
and the initial resolved colour (white); the `Created` ids are exactly
`0, ..., N-1`, each exactly once. -/
theorem source_created (N : ℕ) :
    createdIds ((sourceTrace N).map Prod.fst) = List.range N ∧
    sourceTrace N = ((List.range N).map fun id =>
      (.Created { id := id, block_id := 0, value := .Value Color.WHITE },
       { id := id, block_id := 0 })) := by
  have hmap : ((sourceTrace N).map Prod.fst) = ((List.range N).map fun id =>
      .Created { id := id, block_id := 0, value := .Value Color.WHITE }) := by
    simp [sourceTrace, source_item]
  have hcreated : ∀ l : List ℕ,
      createdIds (l.map fun id =>
        StreamUpdate.Created { id := id, block_id := 0, value := .Value Color.WHITE }) = l := by
    intro l
    induction l with
    | nil => rfl
    | cons a t ih => simpa [createdIds, List.filterMap_cons] using ih
  refine ⟨by rw [hmap, hcreated], ?_⟩
  simp [sourceTrace, source_item]

/-- C10: `map_buffer_unordered(d, C)` appends exactly one descriptor
whose occupancy slot table has exactly `3 * C` slots, all initially
`None`; whenever `C ≥ 1` the slot count strictly exceeds the enforced
concurrency bound `C`. -/
theorem unordered_slot_table (b : StreamVisBuilder) (d : JitteringDuration) (c : ℕ) :
    ∃ blk : BufferUnrderedBlock,
      (b.map_buffer_unordered d c).blocks
        = b.blocks ++ [StreamBlock.mapBufferUnordered blk] ∧
      blk.slots.length = 3 * c ∧
      (∀ s ∈ blk.slots, s = none) ∧
      (1 ≤ c → c < blk.slots.length) := by
  refine ⟨BufferUnrderedBlock.new (b.blocks.length + 1) (c * 3) d.duration c,
    rfl, ?_, ?_, ?_⟩
  · simp [BufferUnrderedBlock.new, Nat.mul_comm]
  · intro s hs
    simp only [BufferUnrderedBlock.new] at hs
    exact List.eq_of_mem_replicate hs
  · intro h
    simp only [BufferUnrderedBlock.new, List.length_replicate]
    omega

/-- C10, witness: at `source(1).map_buffer_unordered(100ms, 2)` the
hypotheses hold concretely. -/
theorem unordered_slot_table_witness :
    (1 : ℕ) ≤ 2 ∧
    (∃ blk : BufferUnrderedBlock,
      ((StreamVisBuilder.source 1).map_buffer_unordered
          (JitteringDuration.from_millis 100 0) 2).blocks
        = (StreamVisBuilder.source 1).blocks ++ [StreamBlock.mapBufferUnordered blk] ∧
      blk.slots.length = 3 * 2 ∧
      (∀ s ∈ blk.slots, s = none) ∧
      (1 ≤ 2 → 2 < blk.slots.length)) :=
  ⟨by decide, unordered_slot_table (StreamVisBuilder.source 1)
    (JitteringDuration.from_millis 100 0) 2⟩

/-- Events of one filter step, spelt out (the sleeps stripped). -/
theorem eventsOf_updating_filter_dec (phase : ℕ) (d : JitteringDuration)
    (color : Color) (unit : StreamedUnit) (uj : ℚ) (b : Bool) :
    eventsOf (updating_filter_dec phase d color unit uj b).1
      = [.AdvanceBlock { id := unit.id, block_id := phase, from_block_id := unit.block_id },
         .ChangeValue { id := unit.id, value := .PendingFuture color },
         .ChangeValue { id := unit.id, value := .RunningFuture 0 },
         .ChangeValue { id := unit.id, value := .RunningFuture (mkRat 1 5) },
         .ChangeValue { id := unit.id, value := .RunningFuture (mkRat 2 5) },
         .ChangeValue { id := unit.id, value := .RunningFuture (mkRat 3 5) },
         .ChangeValue { id := unit.id, value := .RunningFuture (mkRat 4 5) },
         .ChangeValue { id := unit.id, value := .RunningFuture (mkRat 5 5) }]
        ++ (if b then [] else [.FilteredOut { id := unit.id }]) := by
  cases b <;> rfl

/-- Result of one filter step, spelt out. -/
theorem snd_updating_filter_dec (phase : ℕ) (d : JitteringDuration)
    (color : Color) (unit : StreamedUnit) (uj : ℚ) (b : Bool) :
    (updating_filter_dec phase d color unit uj b).2
      = (if b then some unit else none) := rfl

/-- Events of one map step, spelt out (the sleeps stripped). -/
theorem eventsOf_update_stream_state (phase2 : ℕ) (d : JitteringDuration)
    (color : Color) (unit : StreamedUnit) (uj : ℚ) :
    eventsOf (update_stream_state phase2 d color unit uj).1
      = [.AdvanceBlock { id := unit.id, block_id := phase2, from_block_id := unit.block_id },
         .ChangeValue { id := unit.id, value := .PendingFuture color },
         .ChangeValue { id := unit.id, value := .RunningFuture 0 },
         .ChangeValue { id := unit.id, value := .RunningFuture (mkRat 1 5) },
         .ChangeValue { id := unit.id, value := .RunningFuture (mkRat 2 5) },
         .ChangeValue { id := unit.id, value := .RunningFuture (mkRat 3 5) },
         .ChangeValue { id := unit.id, value := .RunningFuture (mkRat 4 5) },
         .ChangeValue { id := unit.id, value := .RunningFuture (mkRat 5 5) }] := rfl

/-- Events of one scenario item, spelt out. -/
theorem eventsOf_scenarioItem (id : ℕ) (d : JitteringDuration) (uj : ℚ) (b : Bool) :
    eventsOf (scenarioItem id d uj b)
      = [.Created { id := id, block_id := 0, value := .Value Color.WHITE },
         .AdvanceBlock { id := id, block_id := 2, from_block_id := 0 },
         .ChangeValue { id := id, value := .PendingFuture (stageColor 2) },
         .ChangeValue { id := id, value := .RunningFuture 0 },
         .ChangeValue { id := id, value := .RunningFuture (mkRat 1 5) },
         .ChangeValue { id := id, value := .RunningFuture (mkRat 2 5) },
         .ChangeValue { id := id, value := .RunningFuture (mkRat 3 5) },
         .ChangeValue { id := id, value := .RunningFuture (mkRat 4 5) },
         .ChangeValue { id := id, value := .RunningFuture (mkRat 5 5) }]
        ++ (if b then [.AdvanceBlock { id := id, block_id := 3, from_block_id := 0 }]
            else [.FilteredOut { id := id }]) := by
  cases b <;> rfl

/-- C4, counterexample to the claim as stated: in
`source(3).filter({100ms,0}, 0.5).sink()` NO `StageAdvanced` into a stage
with id 1 ever occurs (the filter's id is 2, not 1), so "each id gets
exactly one StageAdvanced into the filter stage (whose id is 1)" fails;
the advance into the filter carries `to = 2` and the advance into the
sink carries `to = 3`, not 2. -/
theorem scenario_filter_id_not_one :
    (eventsOf (scenarioTrace (JitteringDuration.from_millis 100 0) (fun _ => 0)
        (fun _ => true))).countP (isAdvanceIntoOf 1 0) = 0 ∧
    (eventsOf (scenarioTrace (JitteringDuration.from_millis 100 0) (fun _ => 0)
        (fun _ => true))).countP (isAdvanceIntoOf 2 0) = 1 ∧
    (eventsOf (scenarioTrace (JitteringDuration.from_millis 100 0) (fun _ => 0)
        (fun _ => true))).countP (isAdvanceIntoOf 3 0) = 1 := by
  decide

/-- C4, amended: in `source(3).filter({100ms,0}, 0.5).sink()` — for any
jitter draws and any retain-draw outcomes — exactly 3 `Created` events
occur, with ids 0, 1, 2, each exactly once; each id gets exactly one
`StageAdvanced` into the filter stage, whose id is 2 (not 1); each id
gets exactly one `ValueChanged(Pending)`; each id gets exactly 6
`ValueChanged(InProgress(k/5))` for `k = 0..5`; and each id then gets
exactly one of `Rejected{id}` or `StageAdvanced{id, to = 3}` (the sink's
id, not 2) — never both and never neither. -/
theorem scenario_event_counts (d : JitteringDuration) (ujs : ℕ → ℚ)
    (retain : ℕ → Bool) :
    createdIds (eventsOf (scenarioTrace d ujs retain)) = [0, 1, 2] ∧
    (∀ i < 3,
      (eventsOf (scenarioTrace d ujs retain)).countP (isAdvanceIntoOf 2 i) = 1 ∧
      (eventsOf (scenarioTrace d ujs retain)).countP (isPendingOf i) = 1 ∧
      progressValues (eventsOf (scenarioTrace d ujs retain)) i
        = [0, mkRat 1 5, mkRat 2 5, mkRat 3 5, mkRat 4 5, 1] ∧
      (eventsOf (scenarioTrace d ujs retain)).countP (isRejOf i)
        + (eventsOf (scenarioTrace d ujs retain)).countP (isAdvanceIntoOf 3 i) = 1) := by
  have h : eventsOf (scenarioTrace d ujs retain)
      = eventsOf (scenarioItem 0 d (ujs 0) (retain 0))
        ++ (eventsOf (scenarioItem 1 d (ujs 1) (retain 1))
          ++ (eventsOf (scenarioItem 2 d (ujs 2) (retain 2)) ++ [])) := by
    simp [scenarioTrace, eventsOf, show List.range 3 = [0, 1, 2] from rfl]
  rw [h, eventsOf_scenarioItem, eventsOf_scenarioItem, eventsOf_scenarioItem]
  cases h0 : retain 0 <;> cases h1 : retain 1 <;> cases h2 : retain 2 <;> decide

/-- Marking an in-flight entry completed does not change which items are
in flight or their order. -/
theorem markAt_map_fst (i : ℕ) (l : List (ℕ × Bool)) :
    (markAt i l).map Prod.fst = l.map Prod.fst := by
  induction l generalizing i with
  | nil => cases i <;> rfl
  | cons x t ih =>
    obtain ⟨p, flag⟩ := x
    cases i with
    | zero => rfl
    | succ m => simp [markAt, ih m]

/-- One step of the ordered machine preserves the decomposition of the
input sequence into emitted, in-flight and pending items, in order. -/
theorem ordStep_inv (bound : ℕ) (inputs : List ℕ) (s : OrdState) (a : OrdAction)
    (h : s.emitted ++ s.inflight.map Prod.fst ++ s.pending = inputs) :
    (ordStep bound s a).emitted ++ (ordStep bound s a).inflight.map Prod.fst
      ++ (ordStep bound s a).pending = inputs := by
  cases a with
  | start =>
    cases hp : s.pending with
    | nil => simpa [ordStep, hp] using h
    | cons p rest =>
      by_cases hb : s.inflight.length < bound
      · simp only [ordStep, hp, if_pos hb]
        rw [← h, hp]
        simp
      · simpa [ordStep, hp, if_neg hb] using h
  | complete i =>
    simpa [ordStep, markAt_map_fst] using h
  | yield =>
    cases hf : s.inflight with
    | nil => simpa [ordStep, hf] using h
    | cons x tl =>
      obtain ⟨p, flag⟩ := x
      cases flag
      · simpa [ordStep, hf] using h
      · simp only [ordStep, hf]
        rw [← h, hf]
        simp

/-- C5: for every concurrency bound, every input sequence and every
scheduler behaviour (any admission / completion / yield order the oracle
chooses, i.e. any RNG seed for the jittered completion times), the items
the ordered bounded map stage has yielded downstream are exactly an
initial segment of the submission sequence: submission order is
preserved, independent of which item completes first. -/
theorem buffered_preserves_order (bound : ℕ) (inputs : List ℕ)
    (acts : List OrdAction) :
    (ordRun bound inputs acts).emitted
        ++ (ordRun bound inputs acts).inflight.map Prod.fst
        ++ (ordRun bound inputs acts).pending = inputs ∧
    (∃ rest, inputs = (ordRun bound inputs acts).emitted ++ rest) := by
  have hgen : ∀ (as : List OrdAction) (s : OrdState),
      s.emitted ++ s.inflight.map Prod.fst ++ s.pending = inputs →
      (as.foldl (ordStep bound) s).emitted
        ++ (as.foldl (ordStep bound) s).inflight.map Prod.fst
        ++ (as.foldl (ordStep bound) s).pending = inputs := by
    intro as
    induction as with
    | nil => intro s h; simpa using h
    | cons a rest ih =>
      intro s h
      rw [List.foldl_cons]
      exact ih _ (ordStep_inv bound inputs s a h)
  have hmain : (ordRun bound inputs acts).emitted
      ++ (ordRun bound inputs acts).inflight.map Prod.fst
      ++ (ordRun bound inputs acts).pending = inputs :=
    hgen acts { pending := inputs, inflight := [], emitted := [] } (by simp)
  refine ⟨hmain, ⟨(ordRun bound inputs acts).inflight.map Prod.fst
    ++ (ordRun bound inputs acts).pending, ?_⟩⟩
  rw [← List.append_assoc]
  exact hmain.symm

/-- Appending after a rejection-free prefix keeps rejections last. -/
theorem rejLastP_append {l m : List StreamUpdate}
    (hl : ∀ e ∈ l, isRej e = false) (hm : rejLastP m) : rejLastP (l ++ m) := by
  induction l with
  | nil => simpa using hm
  | cons e t ih =>
    refine ⟨?_, ih fun x hx => hl x (List.mem_cons_of_mem e hx)⟩
    intro hre
    have hfe := hl e (List.mem_cons_self e t)
    rw [hfe] at hre
    cases hre

/-- All events one filter step emits carry the item's id. -/
theorem filter_events_ids (phase : ℕ) (d : JitteringDuration) (color : Color)
    (unit : StreamedUnit) (uj : ℚ) (b : Bool) :
    ∀ e ∈ eventsOf (updating_filter_dec phase d color unit uj b).1, idOf e = unit.id := by
  rw [eventsOf_updating_filter_dec]
  cases b <;> simp [idOf]

/-- A retaining filter step emits no rejection. -/
theorem filter_events_noRej (phase : ℕ) (d : JitteringDuration) (color : Color)
    (unit : StreamedUnit) (uj : ℚ) :
    ∀ e ∈ eventsOf (updating_filter_dec phase d color unit uj true).1,
      isRej e = false := by
  rw [eventsOf_updating_filter_dec]
  simp [isRej]

/-- A rejecting filter step emits its rejection as the very last event. -/
theorem filter_events_rejLast (phase : ℕ) (d : JitteringDuration) (color : Color)
    (unit : StreamedUnit) (uj : ℚ) :
    rejLastP (eventsOf (updating_filter_dec phase d color unit uj false).1) := by
  rw [eventsOf_updating_filter_dec]
  simp only [Bool.false_eq_true, if_false]
  exact rejLastP_append (by simp [isRej]) ⟨fun _ => rfl, trivial⟩

/-- All events one map step emits carry the item's id. -/
theorem map_events_ids (phase2 : ℕ) (d : JitteringDuration) (color : Color)
    (unit : StreamedUnit) (uj : ℚ) :
    ∀ e ∈ eventsOf (update_stream_state phase2 d color unit uj).1, idOf e = unit.id := by
  rw [eventsOf_update_stream_state]
  simp [idOf]

/-- A map step emits no rejection. -/
theorem map_events_noRej (phase2 : ℕ) (d : JitteringDuration) (color : Color)
    (unit : StreamedUnit) (uj : ℚ) :
    ∀ e ∈ eventsOf (update_stream_state phase2 d color unit uj).1, isRej e = false := by
  rw [eventsOf_update_stream_state]
  simp [isRej]

/-- Every event of an item's lifetime carries that item's id. -/
theorem itemLifetime_ids (sink_id : ℕ) (retain : ℕ → Bool) (durs : ℕ → ℚ) :
    ∀ (ops : List StageOp) (unit : StreamedUnit) (phase : ℕ),
      ∀ e ∈ itemLifetime sink_id retain durs unit phase ops, idOf e = unit.id := by
  intro ops
  induction ops with
  | nil =>
    intro unit phase e he
    simp only [itemLifetime, List.mem_singleton] at he
    subst he
    rfl
  | cons op rest ih =>
    intro unit phase e he
    cases op with
    | filter d r =>
      simp only [itemLifetime, snd_updating_filter_dec] at he
      cases hb : retain phase
      · rw [hb] at he
        simp only [Bool.false_eq_true, if_false, List.append_nil] at he
        exact filter_events_ids _ _ _ _ _ _ e he
      · rw [hb] at he
        simp only [if_true] at he
        rcases List.mem_append.mp he with h | h
        · exact filter_events_ids _ _ _ _ _ _ e h
        · exact ih unit (phase + 1) e h
    | map_buffered d c =>
      simp only [itemLifetime] at he
      rcases List.mem_append.mp he with h | h
      · exact map_events_ids _ _ _ _ _ e h
      · exact ih (update_stream_state phase d (stageColor phase) unit (durs phase)).2
          (phase + 1) e h
    | map_buffer_unordered d c =>
      simp only [itemLifetime] at he
      rcases List.mem_append.mp he with h | h
      · exact map_events_ids _ _ _ _ _ e h
      · exact ih (update_stream_state phase d (stageColor phase) unit (durs phase)).2
          (phase + 1) e h

/-- An item's lifetime has rejections only in final position. -/
theorem itemLifetime_rejLast (sink_id : ℕ) (retain : ℕ → Bool) (durs : ℕ → ℚ) :
    ∀ (ops : List StageOp) (unit : StreamedUnit) (phase : ℕ),
      rejLastP (itemLifetime sink_id retain durs unit phase ops) := by
  intro ops
  induction ops with
  | nil =>
    intro unit phase
    exact ⟨fun _ => rfl, trivial⟩
  | cons op rest ih =>
    intro unit phase
    cases op with
    | filter d r =>
      simp only [itemLifetime, snd_updating_filter_dec]
      cases hb : retain phase
      · simp only [Bool.false_eq_true, if_false, List.append_nil]
        exact filter_events_rejLast _ _ _ _ _
      · simp only [if_true]
        exact rejLastP_append (filter_events_noRej _ _ _ _ _) (ih unit (phase + 1))
    | map_buffered d c =>
      simp only [itemLifetime]
      exact rejLastP_append (map_events_noRej _ _ _ _ _) (ih _ (phase + 1))
    | map_buffer_unordered d c =>
      simp only [itemLifetime]
      exact rejLastP_append (map_events_noRej _ _ _ _ _) (ih _ (phase + 1))

/-- Every event of a full per-item trace carries that item's id. -/
theorem fullItemTrace_ids (ops : List StageOp) (retain : ℕ → Bool) (durs : ℕ → ℚ)
    (i : ℕ) : ∀ e ∈ fullItemTrace ops retain durs i, idOf e = i := by
  intro e he
  rcases List.mem_cons.mp he with rfl | h
  · rfl
  · exact itemLifetime_ids _ _ _ ops (source_item i).2 2 e h

/-- A full per-item trace has rejections only in final position. -/
theorem fullItemTrace_rejLast (ops : List StageOp) (retain : ℕ → Bool)
    (durs : ℕ → ℚ) (i : ℕ) : rejLastP (fullItemTrace ops retain durs i) :=
  ⟨(fun h => nomatch h), itemLifetime_rejLast _ _ _ ops (source_item i).2 2⟩

/-- Every event of an interleaving comes from one of the per-item
sequences. -/
theorem mem_interleave (sched : List ℕ) (trs : ℕ → List StreamUpdate)
    (x : StreamUpdate) (hx : x ∈ interleave trs sched) : ∃ k, x ∈ trs k := by
  induction sched generalizing trs with
  | nil => simp [interleave] at hx
  | cons i rest ih =>
    cases ht : trs i with
    | nil =>
      rw [show interleave trs (i :: rest) = interleave trs rest by
        simp [interleave, ht]] at hx
      exact ih trs hx
    | cons e tl =>
      rw [show interleave trs (i :: rest)
          = e :: interleave (fun j => if j = i then tl else trs j) rest by
        simp [interleave, ht]] at hx
      rcases List.mem_cons.mp hx with rfl | hx2
      · exact ⟨i, by rw [ht]; exact List.mem_cons_self _ _⟩
      · obtain ⟨k, hk⟩ := ih _ hx2
        by_cases hki : k = i
        · subst hki
          simp only [if_pos rfl] at hk
          exact ⟨k, by rw [ht]; exact List.mem_cons_of_mem _ hk⟩
        · exact ⟨k, by simpa [hki] using hk⟩

/-- Interleaving per-item sequences — each carrying only its own id, with
rejections only in final position — yields a trace with no events after a
rejection for the rejected id. -/
theorem interleave_clean (sched : List ℕ) (trs : ℕ → List StreamUpdate)
    (h : ∀ k, (∀ e ∈ trs k, idOf e = k) ∧ rejLastP (trs k)) :
    cleanAfterRej (interleave trs sched) := by
  induction sched generalizing trs with
  | nil => trivial
  | cons i rest ih =>
    cases ht : trs i with
    | nil =>
      rw [show interleave trs (i :: rest) = interleave trs rest by
        simp [interleave, ht]]
      exact ih trs h
    | cons e tl =>
      rw [show interleave trs (i :: rest)
          = e :: interleave (fun j => if j = i then tl else trs j) rest by
        simp [interleave, ht]]
      have hid : idOf e = i := (h i).1 e (by rw [ht]; exact List.mem_cons_self _ _)
      have hGood2 : ∀ k, (∀ x ∈ (fun j => if j = i then tl else trs j) k, idOf x = k) ∧
          rejLastP ((fun j => if j = i then tl else trs j) k) := by
        intro k
        by_cases hk : k = i
        · subst hk
          simp only [if_pos rfl]
          have h1 := (h k).1
          have h2 := (h k).2
          rw [ht] at h1 h2
          exact ⟨fun x hx => h1 x (List.mem_cons_of_mem _ hx), h2.2⟩
        · simpa [hk] using h k
      refine ⟨?_, ih _ hGood2⟩
      intro hrej x hx
      have htl : tl = [] := by
        have h2 := (h i).2
        rw [ht] at h2
        exact h2.1 hrej
      obtain ⟨k, hk⟩ := mem_interleave rest _ x hx
      by_cases hki : k = i
      · subst hki
        simp only [if_pos rfl, htl] at hk
        cases hk
      · have hxk : idOf x = k := (hGood2 k).1 x hk
        rw [hxk, hid]
        exact hki

/-- C9: in any pipeline `source(n).ops.sink()`, for every retain and
jitter draw, and for EVERY scheduling of the concurrent per-item tasks,
once `Rejected{id}` is emitted no later event of any kind carries that
id. -/
theorem no_events_after_rejection (n : ℕ) (ops : List StageOp)
    (retain : ℕ → ℕ → Bool) (durs : ℕ → ℕ → ℚ) (sched : List ℕ) :
    cleanAfterRej (interleave (pipelineTraces n ops retain durs) sched) := by
  apply interleave_clean
  intro k
  by_cases hk : k < n
  · refine ⟨?_, ?_⟩
    · intro e he
      simp only [pipelineTraces, if_pos hk] at he
      exact fullItemTrace_ids ops (retain k) (durs k) k e he
    · simp only [pipelineTraces, if_pos hk]
      exact fullItemTrace_rejLast ops (retain k) (durs k) k
  · refine ⟨?_, ?_⟩
    · intro e he
      simp [pipelineTraces, hk] at he
    · simp only [pipelineTraces, if_neg hk]
      trivial

/-- Shape analysis of one tick: either the index misses (no change, no
events), or the in-flight list splits around the ticked entry, which
either advances one tick or finishes and leaves. -/
theorem tickAt_cases (n : ℕ) (l : List (ℕ × ℕ)) :
    ((tickAt n l).1 = l ∧ (tickAt n l).2 = []) ∨
    ∃ p k pre post, l = pre ++ (p, k) :: post ∧
      ((k + 1 < INTERVAL ∧ (tickAt n l).1 = pre ++ (p, k + 1) :: post ∧
          (tickAt n l).2
            = [.ChangeValue { id := p, value := .RunningFuture (mkRat (k + 1) INTERVAL) }]) ∨
       (¬ k + 1 < INTERVAL ∧ (tickAt n l).1 = pre ++ post ∧
          (tickAt n l).2 = [.ChangeValue { id := p, value := .RunningFuture 1 }])) := by
  induction l generalizing n with
  | nil => left; cases n <;> exact ⟨rfl, rfl⟩
  | cons x t ih =>
    obtain ⟨p, k⟩ := x
    cases n with
    | zero =>
      right
      by_cases h5 : k + 1 < INTERVAL
      · exact ⟨p, k, [], t, rfl, .inl ⟨h5, by simp [tickAt, h5], by simp [tickAt, h5]⟩⟩
      · exact ⟨p, k, [], t, rfl, .inr ⟨h5, by simp [tickAt, h5], by simp [tickAt, h5]⟩⟩
    | succ m =>
      rcases ih m with ⟨h1, h2⟩ | ⟨p2, k2, pre, post, heq, hcase⟩
      · left
        exact ⟨by simp [tickAt, h1], by simp [tickAt, h2]⟩
      · right
        refine ⟨p2, k2, (p, k) :: pre, post, by rw [List.cons_append, ← heq], ?_⟩
        rcases hcase with ⟨h5, ha, hb⟩ | ⟨h5, ha, hb⟩
        · exact .inl ⟨h5, by simp [tickAt, ha], by simp [tickAt, hb]⟩
        · exact .inr ⟨h5, by simp [tickAt, ha], by simp [tickAt, hb]⟩

/-- `hasRF` distributes over trace concatenation. -/
theorem hasRF_append (t1 t2 : List StreamUpdate) (i : ℕ) :
    hasRF (t1 ++ t2) i = (hasRF t1 i || hasRF t2 i) := List.any_append

/-- `hasRF1` distributes over trace concatenation. -/
theorem hasRF1_append (t1 t2 : List StreamUpdate) (i : ℕ) :
    hasRF1 (t1 ++ t2) i = (hasRF1 t1 i || hasRF1 t2 i) := List.any_append

/-- The admission events report in-flight work exactly for the admitted
item. -/
theorem hasRF_start_evs (p j phase : ℕ) (color : Color) :
    hasRF [.AdvanceBlock { id := p, block_id := phase, from_block_id := 0 },
           .ChangeValue { id := p, value := .PendingFuture color },
           .ChangeValue { id := p, value := .RunningFuture 0 }] j = (p == j) := by
  simp [hasRF]

/-- The admission events never report a final fraction. -/
theorem hasRF1_start_evs (p j phase : ℕ) (color : Color) :
    hasRF1 [.AdvanceBlock { id := p, block_id := phase, from_block_id := 0 },
            .ChangeValue { id := p, value := .PendingFuture color },
            .ChangeValue { id := p, value := .RunningFuture 0 }] j = false := by
  simp [hasRF1, show ((0 : ℚ) == 1) = false from by decide]

/-- A single progress report mentions exactly its item. -/
theorem hasRF_single (p j : ℕ) (q : ℚ) :
    hasRF [.ChangeValue { id := p, value := .RunningFuture q }] j = (p == j) := by
  simp [hasRF]

/-- A single progress report is final exactly when its fraction is 1. -/
theorem hasRF1_single (p j : ℕ) (q : ℚ) :
    hasRF1 [.ChangeValue { id := p, value := .RunningFuture q }] j
      = ((p == j) && (q == 1)) := by
  simp [hasRF1]

/-- One step of the unordered machine preserves both invariants: at most
`bound` items in flight, and every id the trace reports as in flight
(`openRF`) is indeed in the in-flight list. -/
theorem unordStep_inv (bound phase : ℕ) (color : Color) (s : UnordState)
    (a : UnordAction)
    (h1 : s.inflight.length ≤ bound)
    (h2 : ∀ j, openRF s.trace j = true → j ∈ s.inflight.map Prod.fst) :
    (unordStep bound phase color s a).inflight.length ≤ bound ∧
    ∀ j, openRF (unordStep bound phase color s a).trace j = true →
      j ∈ (unordStep bound phase color s a).inflight.map Prod.fst := by
  cases a with
  | start =>
    cases hp : s.pending with
    | nil =>
      exact ⟨by simpa [unordStep, hp] using h1, by simpa [unordStep, hp] using h2⟩
    | cons p rest =>
      by_cases hb : s.inflight.length < bound
      · refine ⟨?_, ?_⟩
        · simp only [unordStep, hp, if_pos hb, List.length_append, List.length_cons,
            List.length_nil]
          omega
        · intro j hj
          simp only [unordStep, hp, if_pos hb] at hj ⊢
          by_cases hjp : j = p
          · subst hjp
            simp
          · have hpj : (p == j) = false := beq_eq_false_iff_ne.mpr fun hc => hjp hc.symm
            rw [openRF, hasRF_append, hasRF1_append, hasRF_start_evs, hasRF1_start_evs,
              hpj] at hj
            simp only [Bool.or_false] at hj
            have := h2 j hj
            simp only [List.map_append, List.mem_append]
            exact Or.inl this
      · exact ⟨by simpa [unordStep, hp, if_neg hb] using h1,
          by simpa [unordStep, hp, if_neg hb] using h2⟩
  | tick iAct =>
    rcases tickAt_cases iAct s.inflight with ⟨ha, hb⟩ | ⟨p, k, pre, post, heq, hcase⟩
    · refine ⟨?_, ?_⟩
      · simpa [unordStep, ha] using h1
      · intro j hj
        simp only [unordStep, ha, hb, List.append_nil] at hj ⊢
        exact h2 j hj
    · rcases hcase with ⟨h5, ha, hb⟩ | ⟨h5, ha, hb⟩
      · refine ⟨?_, ?_⟩
        · have := h1
          rw [heq] at this
          simp only [unordStep, ha, List.length_append, List.length_cons] at this ⊢
          omega
        · intro j hj
          simp only [unordStep, ha, hb] at hj ⊢
          by_cases hjp : j = p
          · subst hjp
            simp
          · have hpj : (p == j) = false := beq_eq_false_iff_ne.mpr fun hc => hjp hc.symm
            rw [openRF, hasRF_append, hasRF1_append, hasRF_single, hasRF1_single,
              hpj] at hj
            simp only [Bool.false_and, Bool.or_false] at hj
            have hmem := h2 j hj
            rw [heq] at hmem
            simp only [List.map_append, List.map_cons, List.mem_append,
              List.mem_cons] at hmem ⊢
            rcases hmem with h | h | h
            · exact Or.inl h
            · exact absurd h hjp
            · exact Or.inr (Or.inr h)
      · refine ⟨?_, ?_⟩
        · have := h1
          rw [heq] at this
          simp only [unordStep, ha, List.length_append, List.length_cons] at this ⊢
          omega
        · intro j hj
          simp only [unordStep, ha, hb] at hj ⊢
          by_cases hjp : j = p
          · subst hjp
            rw [openRF, hasRF_append, hasRF1_append, hasRF_single, hasRF1_single] at hj
            simp at hj
          · have hpj : (p == j) = false := beq_eq_false_iff_ne.mpr fun hc => hjp hc.symm
            rw [openRF, hasRF_append, hasRF1_append, hasRF_single, hasRF1_single,
              hpj] at hj
            simp only [Bool.false_and, Bool.or_false] at hj
            have hmem := h2 j hj
            rw [heq] at hmem
            simp only [List.map_append, List.map_cons, List.mem_append,
              List.mem_cons] at hmem ⊢
            rcases hmem with h | h | h
            · exact Or.inl h
            · exact absurd h hjp
            · exact Or.inr h

/-- C6: for every concurrency bound, every scheduling of admissions and
progress ticks, and every duplicate-free set of candidate item ids, the
number of ids the unordered stage's event trace shows as having work in
flight — an `InProgress` report emitted but the final fraction 1 not yet
emitted — never exceeds the bound. -/
theorem unordered_inflight_bound (bound phase : ℕ) (color : Color)
    (inputs : List ℕ) (acts : List UnordAction) (ids : List ℕ)
    (hids : ids.Nodup) :
    openCount ((unordRun bound phase color inputs acts).trace) ids ≤ bound := by
  have hinv : ∀ (as : List UnordAction) (s : UnordState),
      s.inflight.length ≤ bound →
      (∀ j, openRF s.trace j = true → j ∈ s.inflight.map Prod.fst) →
      (as.foldl (unordStep bound phase color) s).inflight.length ≤ bound ∧
      ∀ j, openRF (as.foldl (unordStep bound phase color) s).trace j = true →
        j ∈ (as.foldl (unordStep bound phase color) s).inflight.map Prod.fst := by
    intro as
    induction as with
    | nil => intro s ha hb; exact ⟨ha, hb⟩
    | cons a rest ih =>
      intro s ha hb
      rw [List.foldl_cons]
      obtain ⟨ha2, hb2⟩ := unordStep_inv bound phase color s a ha hb
      exact ih _ ha2 hb2
  obtain ⟨hlen, hopen⟩ := hinv acts { pending := inputs, inflight := [], trace := [] }
    (by simp) (by intro j hj; simp [openRF, hasRF] at hj)
  rw [openCount, List.countP_eq_length_filter]
  calc (ids.filter (openRF ((unordRun bound phase color inputs acts).trace))).length
      ≤ ((unordRun bound phase color inputs acts).inflight.map Prod.fst).length := by
        apply List.Subperm.length_le
        apply List.subperm_of_subset (hids.filter _)
        intro x hx
        exact hopen x (List.of_mem_filter hx)
    _ = (unordRun bound phase color inputs acts).inflight.length := by simp
    _ ≤ bound := hlen

/-- C6, witness: a concrete bounded run with three candidate ids. -/
theorem unordered_inflight_bound_witness :
    ([0, 1, 2] : List ℕ).Nodup ∧
    openCount ((unordRun 2 2 Color.WHITE [0, 1, 2]
        [.start, .start, .tick 0, .start]).trace) [0, 1, 2] ≤ 2 :=
  ⟨by decide, unordered_inflight_bound 2 2 Color.WHITE [0, 1, 2]
    [.start, .start, .tick 0, .start] [0, 1, 2] (by decide)⟩

/-- C4, witness: the per-id bounds of the amended scenario claim hold
concretely for id 0 when every retain draw fails. -/
theorem scenario_event_counts_witness :
    (0 : ℕ) < 3 ∧
    ((eventsOf (scenarioTrace (JitteringDuration.from_millis 100 0) (fun _ => 0)
        (fun _ => false))).countP (isAdvanceIntoOf 2 0) = 1 ∧
      (eventsOf (scenarioTrace (JitteringDuration.from_millis 100 0) (fun _ => 0)
        (fun _ => false))).countP (isPendingOf 0) = 1 ∧
      progressValues (eventsOf (scenarioTrace (JitteringDuration.from_millis 100 0)
        (fun _ => 0) (fun _ => false))) 0
        = [0, mkRat 1 5, mkRat 2 5, mkRat 3 5, mkRat 4 5, 1] ∧
      (eventsOf (scenarioTrace (JitteringDuration.from_millis 100 0) (fun _ => 0)
        (fun _ => false))).countP (isRejOf 0)
        + (eventsOf (scenarioTrace (JitteringDuration.from_millis 100 0) (fun _ => 0)
          (fun _ => false))).countP (isAdvanceIntoOf 3 0) = 1) :=
  ⟨by decide, (scenario_event_counts (JitteringDuration.from_millis 100 0) (fun _ => 0)
    (fun _ => false)).2 0 (by decide)⟩
